import Mathlib

/-!
Verification of the xfa2json converter (`src/xfa.py`, `src/xfa2json.py`).

The development shallowly embeds the structural core of the converter:

* `find_in_dict` — the recursive key search over the PDF's resolved-object
  graph (`Xfa.find_in_dict`);
* `element_to_dict` / `xml_to_dict` — the XML-element-to-nested-map
  conversion (`Xfa.element_to_dict`);
* `flatten_entries` — the dictionary flattener (`Xfa._flatten_dict`);
* `jsonDump` — `json.dumps(…, indent=4, sort_keys=True)` as used by
  `Xfa.to_json`;
* `to_csv_tree` / `convert_stage` — the JSON/CSV stages of `Xfa.to_csv`,
  `Xfa.to_json` and `Xfa.convert`;
* `to_xml_extract` — the candidate-scanning loop of `Xfa.to_xml`.
-/

/-! ## Python value model for the resolved-object graph

`Xfa.find_in_dict` walks an arbitrary nested Python structure.  We model the
values it can meet: `None`, scalars (strings stand in for all scalars),
lists, and dictionaries.  A dictionary is a list of entries in insertion
order; an entry is either an ordinary key/value pair (`Entry.ok`) or a key
whose value access raises (`Entry.bad`), modelling the `try/except` around
`haystack[key]` in the source. -/

mutual

inductive PyVal where
  | vnone : PyVal
  | vstr (s : String) : PyVal
  | vlist (vs : List PyVal) : PyVal
  | vdict (es : List Entry) : PyVal
deriving Repr

inductive Entry where
  | ok (key : String) (value : PyVal) : Entry
  | bad (key : String) : Entry
deriving Repr

end

/-- `Xfa.find_in_dict` (src/xfa.py lines 48–65): iterate the haystack's
entries in order; an entry whose value access raises is skipped; if the key
equals the needle, return its value (Python `return value`, where a `None`
value is indistinguishable from the absent result); otherwise, if the value
is a dict, recurse, and return the recursive result when it is not `None`;
fall off the end returns `None`. -/
def find_in_dict (needle : String) : List Entry → PyVal
  | [] => .vnone
  | .bad _ :: rest => find_in_dict needle rest
  | .ok key value :: rest =>
    if key = needle then value
    else
      match value with
      | .vdict es =>
        match find_in_dict needle es with
        | .vnone => find_in_dict needle rest
        | item => item
      | _ => find_in_dict needle rest
termination_by l => sizeOf l
decreasing_by all_goals (simp_wf <;> omega)

/-- The keys `find_in_dict` can actually reach: keys of accessible entries
at this level, plus keys reachable through accessible dict-valued entries.
Entries whose access raises contribute nothing (their key test is skipped),
and list values are never entered. -/
def occursReachable (needle : String) : List Entry → Bool
  | [] => false
  | .bad _ :: rest => occursReachable needle rest
  | .ok key value :: rest =>
    (key == needle) ||
      (match value with
       | .vdict es => occursReachable needle es
       | _ => false) ||
      occursReachable needle rest
termination_by l => sizeOf l
decreasing_by all_goals (simp_wf <;> omega)

mutual

/-- Whether `needle` occurs as a key anywhere in the structure: in any
entry (accessible or not) of any dict, at any depth, including dicts inside
lists. -/
def occursAnywhereV (needle : String) : PyVal → Bool
  | .vnone => false
  | .vstr _ => false
  | .vlist vs => occursAnywhereL needle vs
  | .vdict es => occursAnywhereE needle es

def occursAnywhereL (needle : String) : List PyVal → Bool
  | [] => false
  | v :: rest => occursAnywhereV needle v || occursAnywhereL needle rest

def occursAnywhereE (needle : String) : List Entry → Bool
  | [] => false
  | .bad key :: rest => (key == needle) || occursAnywhereE needle rest
  | .ok key value :: rest =>
    (key == needle) || occursAnywhereV needle value || occursAnywhereE needle rest

end

/-! ## XML element model and `element_to_dict`

`Xfa.xml_to_dict` hands the root `xml.etree` element to
`Xfa.element_to_dict`.  We embed the parsed element tree: a tag, the
attribute pairs (in document order), the child elements (in document
order), and the element's text (`none` models Python `None`). -/

inductive Element where
  | mk (tag : String) (attrib : List (String × String))
       (children : List Element) (text : Option String) : Element
deriving Repr

def Element.tag : Element → String
  | .mk t _ _ _ => t

/-- The JSON-side value model: what `element_to_dict` builds and what
`json.dumps`/`json.loads` shuttle around.  Dictionaries are entry lists in
insertion order. -/
inductive JVal where
  | jnull : JVal
  | jstr (s : String) : JVal
  | jlist (vs : List JVal) : JVal
  | jdict (es : List (String × JVal)) : JVal
deriving Repr

/-- Python `d[key] = value` semantics on an insertion-ordered dict: an
existing key keeps its position and gets the new value; a fresh key is
appended. -/
def dictAssign (d : List (String × JVal)) (k : String) (v : JVal) :
    List (String × JVal) :=
  if (d.lookup k).isSome then
    d.map (fun p => if p.1 = k then (p.1, v) else p)
  else
    d ++ [(k, v)]

/-- The repeated-sibling-tag rule of `element_to_dict` (src/xfa.py lines
92–98): a fresh key is appended; an existing key's value is promoted to a
list (if it is not one already) and the new value appended to it, the key
keeping its position. -/
def dictInsertChild (d : List (String × JVal)) (k : String) (v : JVal) :
    List (String × JVal) :=
  if (d.lookup k).isSome then
    d.map (fun p =>
      if p.1 = k then
        (p.1, match p.2 with
              | .jlist vs => .jlist (vs ++ [v])
              | old => .jlist [old, v])
      else p)
  else
    d ++ [(k, v)]

/-- Python `d.update(element.attrib)` (src/xfa.py line 101): assign each
attribute in order; a name colliding with an existing key overwrites it in
place. -/
def dictUpdate (d : List (String × JVal)) (attrs : List (String × String)) :
    List (String × JVal) :=
  attrs.foldl (fun d p => dictAssign d p.1 (.jstr p.2)) d

mutual

/-- `Xfa.element_to_dict` (src/xfa.py lines 75–103): an element with no
children and no attributes is its text (Python `None` → `jnull`);
otherwise build a dict from the children in order with the
repeated-tag-to-list rule, then merge the attributes on top. -/
def element_to_dict : Element → JVal
  | .mk _tag attrib children text =>
    if children.isEmpty && attrib.isEmpty then
      match text with
      | none => .jnull
      | some s => .jstr s
    else
      .jdict (dictUpdate
        ((childPairs children).foldl (fun d p => dictInsertChild d p.1 p.2) [])
        attrib)

/-- The `(child.tag, element_to_dict child)` pairs, in document order. -/
def childPairs : List Element → List (String × JVal)
  | [] => []
  | c :: rest => (c.tag, element_to_dict c) :: childPairs rest

end

/-- `Xfa.xml_to_dict` (src/xfa.py lines 67–73): parse the text and convert
the root element.  The XML parser itself (`xml.etree.ElementTree`) is an
external codec; the function takes the parsed root element. -/
def xml_to_dict (root : Element) : JVal :=
  element_to_dict root

/-! ## Flattener (`Xfa._flatten_dict`) -/

/-- `Xfa._flatten_dict` (src/xfa.py lines 105–120): walk the dict's entries
in order; a dict-valued entry is flattened recursively under
`parent ++ sep ++ key` (just `key` when the parent path is the falsy empty
string); any other value — scalars and lists alike — is emitted as one
flat pair. -/
def flatten_entries (sep : String) :
    List (String × JVal) → String → List (String × JVal)
  | [], _ => []
  | (k, v) :: rest, parent =>
    let new_key := if parent = "" then k else parent ++ sep ++ k
    (match v with
     | .jdict es => flatten_entries sep es new_key
     | _ => [(new_key, v)]) ++ flatten_entries sep rest parent
termination_by l _ => sizeOf l
decreasing_by all_goals (simp_wf <;> omega)

/-- Python `dict(pairs)`: fold the pairs into an insertion-ordered dict,
later duplicates overwriting in place (src/xfa.py line 182). -/
def dict_of_pairs (ps : List (String × JVal)) : List (String × JVal) :=
  ps.foldl (fun d p => dictAssign d p.1 p.2) []

/-! ## `json.dumps(…, indent=4, sort_keys=True)` (used by `Xfa.to_json`) -/

/-- Hex digit, lower case, as emitted by `json.dumps` escapes. -/
def hexDigit (n : Nat) : Char :=
  if n < 10 then Char.ofNat (48 + n) else Char.ofNat (87 + n)

/-- Four-digit lower-case hex, as in a `\uXXXX` escape. -/
def hex4 (n : Nat) : String :=
  String.mk [hexDigit (n / 4096 % 16), hexDigit (n / 256 % 16),
             hexDigit (n / 16 % 16), hexDigit (n % 16)]

/-- `json.dumps` escaping of one character (default `ensure_ascii=True`):
the two-character escapes, `\uXXXX` for other control or non-ASCII
characters (surrogate pairs above U+FFFF), the character itself
otherwise. -/
def jsonEscapeChar (c : Char) : String :=
  if c = '"' then "\\\""
  else if c = '\\' then "\\\\"
  else if c = '\n' then "\\n"
  else if c = '\r' then "\\r"
  else if c = '\t' then "\\t"
  else if c.toNat = 8 then "\\b"
  else if c.toNat = 12 then "\\f"
  else if c.toNat < 32 then "\\u" ++ hex4 c.toNat
  else if c.toNat < 127 then String.mk [c]
  else if c.toNat < 65536 then "\\u" ++ hex4 c.toNat
  else
    "\\u" ++ hex4 (55296 + (c.toNat - 65536) / 1024) ++
    "\\u" ++ hex4 (56320 + (c.toNat - 65536) % 1024)

/-- A JSON string literal as `json.dumps` writes it. -/
def jsonQuote (s : String) : String :=
  "\"" ++ String.join (s.data.map jsonEscapeChar) ++ "\""

/-- Insert a rendered entry into a list sorted by key, keeping sort
stability (matches Python's stable `sorted` used by `sort_keys=True`;
keys of a Python dict are unique anyway). -/
def insertByKey (p : String × String) :
    List (String × String) → List (String × String)
  | [] => [p]
  | q :: rest => if p.1 ≤ q.1 then p :: q :: rest else q :: insertByKey p rest

/-- Sort rendered entries by key (the `sort_keys=True` behaviour). -/
def sortByKey (ps : List (String × String)) : List (String × String) :=
  ps.foldr insertByKey []

/-- The indentation prefix at nesting level `lvl` for `indent=4`. -/
def indentStr (lvl : Nat) : String :=
  String.mk (List.replicate (4 * lvl) ' ')

mutual

/-- `json.dumps(v, indent=4, sort_keys=True)` at nesting level `lvl`:
`null` for `None`; quoted strings; `[]`/`{}` for empty containers;
otherwise one item per line, indented four more spaces, separated by
`",\n"`, and objects with their keys sorted. -/
def dumpAux : JVal → Nat → String
  | .jnull, _ => "null"
  | .jstr s, _ => jsonQuote s
  | .jlist vs, lvl =>
    if vs.isEmpty then "[]"
    else
      "[\n" ++
      String.intercalate ",\n"
        ((dumpItems vs (lvl + 1)).map (fun s => indentStr (lvl + 1) ++ s)) ++
      "\n" ++ indentStr lvl ++ "]"
  | .jdict es, lvl =>
    if es.isEmpty then "{}"
    else
      "\x7b\n" ++
      String.intercalate ",\n"
        ((sortByKey (dumpEntries es (lvl + 1))).map
          (fun p => indentStr (lvl + 1) ++ jsonQuote p.1 ++ ": " ++ p.2)) ++
      "\n" ++ indentStr lvl ++ "\x7d"

def dumpItems : List JVal → Nat → List String
  | [], _ => []
  | v :: rest, lvl => dumpAux v lvl :: dumpItems rest lvl

def dumpEntries : List (String × JVal) → Nat → List (String × String)
  | [], _ => []
  | (k, v) :: rest, lvl => (k, dumpAux v lvl) :: dumpEntries rest lvl

end

/-- The serialization `Xfa.to_json` applies to the parsed tree
(src/xfa.py line 161): `json.dumps(tree, indent=4, sort_keys=True)`. -/
def jsonDump (v : JVal) : String :=
  dumpAux v 0

/-! ## CSV stage (`Xfa.to_csv`) and the conversion dispatcher -/

/-- The errors the JSON/CSV stages can raise: the empty-tree guard of
`Xfa.to_csv` (`"JSON data failed to load."`, the spec's `EmptyPayload`),
the `AttributeError` from calling `.items()` on a non-dict in
`Xfa._flatten_dict`, and the unknown-format error of `Xfa.convert` (the
spec's `UnsupportedFormat`). -/
inductive PyErr where
  | emptyPayload : PyErr
  | attributeError : PyErr
  | unsupportedFormat : PyErr
deriving Repr, DecidableEq

/-- Python truthiness of a parsed JSON tree: `None`, `""`, `[]` and `{}`
are falsy; everything else is truthy (the `if not json_dict` test of
src/xfa.py line 179). -/
def truthy : JVal → Bool
  | .jnull => false
  | .jstr s => !(s == "")
  | .jlist vs => !vs.isEmpty
  | .jdict es => !es.isEmpty

/-- Python `str()` of a flattened scalar as `csv.DictWriter` writes it:
`None` becomes the empty field, a string is itself, and a list or dict is
its `repr` (lists survive flattening untouched; the claims never exercise
their textual form, only that one is emitted). -/
def csvField : JVal → String
  | .jnull => ""
  | .jstr s => s
  | .jlist _ => "[…]"
  | .jdict _ => "{…}"

/-- `csv` QUOTE_MINIMAL: a field is quoted iff it holds the delimiter, the
quote character, or a line-terminator character; quotes are doubled. -/
def csvQuote (s : String) : String :=
  if s.data.any (fun c => c = ',' || c = '"' || c = '\r' || c = '\n') then
    "\"" ++
      String.mk (s.data.foldr
        (fun c acc => if c = '"' then '"' :: '"' :: acc else c :: acc) []) ++
    "\""
  else s

/-- One `csv.writer` row: comma-joined minimally-quoted fields followed by
the writer's default `\r\n` line terminator. -/
def csvRow (fields : List String) : String :=
  String.intercalate "," (fields.map csvQuote) ++ "\r\n"

/-- The CSV stage of `Xfa.to_csv` (src/xfa.py lines 173–195) applied to the
parsed tree: raise the empty-payload error when the tree is falsy;
otherwise `_flatten_dict(tree).items()` requires a dict — any other value
raises `AttributeError`; for a dict, flatten, then write the header row
(the flat keys in order) and the single data row. -/
def to_csv_tree (t : JVal) : Except PyErr String :=
  if truthy t = false then .error .emptyPayload
  else
    match t with
    | .jdict es =>
      let flat := dict_of_pairs (flatten_entries "_" es "")
      .ok (csvRow (flat.map Prod.fst) ++ csvRow (flat.map (fun p => csvField p.2)))
    | _ => .error .attributeError

/-- The JSON stage of `Xfa.to_json` applied to the parsed tree (src/xfa.py
lines 155–163): serialize unconditionally — there is no emptiness check on
this path. -/
def to_json_tree (t : JVal) : Except PyErr String :=
  .ok (jsonDump t)

/-- The dispatch of `Xfa.convert` (src/xfa.py lines 197–208), restricted to
the JSON and CSV stages the claims are about, applied to the parsed
tree. -/
def convert_stage (kind : String) (t : JVal) : Except PyErr String :=
  if kind = "json" then to_json_tree t
  else if kind = "csv" then to_csv_tree t
  else .error .unsupportedFormat

/-! ## Payload extraction (`Xfa.to_xml`, src/xfa.py lines 123–143)

The loop walks the `/XFA` candidate sequence in order.  A candidate is
either an indirect reference — resolving it yields the stream's bytes,
modelled as the decoded string — or any other object, which is skipped
without resolution.  The first resolved stream matching the signature is
decoded and returned (`break`); with no match the loop falls through and
the code raises (`"No XML data found in PDF."`, the spec's
`PayloadNotFound`).  The matcher (`re.search(b'datasets xmlns', …)` here,
a `startswith` in src/xfa2json.py) is kept as a parameter, as the spec
directs.  `to_xml_extract` returns the loop's result together with the
number of candidates it resolved, making the early exit observable. -/

inductive Candidate where
  | indirect (data : String) : Candidate
  | direct : Candidate
deriving Repr

def to_xml_extract (sigMatch : String → Bool) :
    List Candidate → Option String × Nat
  | [] => (none, 0)
  | .direct :: rest => to_xml_extract sigMatch rest
  | .indirect data :: rest =>
    if sigMatch data then (some data, 1)
    else
      let r := to_xml_extract sigMatch rest
      (r.1, r.2 + 1)

/-- The indirect candidates in a candidate list (each one costs a
resolution when the loop reaches it). -/
def countIndirect : List Candidate → Nat
  | [] => 0
  | .indirect _ :: rest => countIndirect rest + 1
  | .direct :: rest => countIndirect rest

/-! ## Lemmas about `find_in_dict` -/

/-- If the needle is nowhere among the keys `find_in_dict` can reach, the
search returns `None`. -/
theorem find_in_dict_eq_vnone_of_not_reachable (needle : String) (h : List Entry) :
    occursReachable needle h = false → find_in_dict needle h = .vnone := by
  induction h using occursReachable.induct needle with
  | case1 => simp [find_in_dict]
  | case2 key rest ih =>
    intro hocc
    rw [occursReachable.eq_2] at hocc
    simp only [find_in_dict]
    exact ih hocc
  | case3 key value rest ihv ihr =>
    intro hocc
    match value, ihv, hocc with
    | .vdict es, ihv, hocc =>
      rw [occursReachable.eq_3] at hocc
      simp only [Bool.or_eq_false_iff, beq_eq_false_iff_ne] at hocc
      obtain ⟨⟨hkey, hval⟩, hrest⟩ := hocc
      simp only [find_in_dict, if_neg hkey]
      rw [ihv hval]
      exact ihr hrest
    | .vnone, _, hocc =>
      simp only [occursReachable, Bool.or_eq_false_iff, beq_eq_false_iff_ne] at hocc
      simp only [find_in_dict, if_neg hocc.1.1]
      exact ihr hocc.2
    | .vstr s, _, hocc =>
      simp only [occursReachable, Bool.or_eq_false_iff, beq_eq_false_iff_ne] at hocc
      simp only [find_in_dict, if_neg hocc.1.1]
      exact ihr hocc.2
    | .vlist vs, _, hocc =>
      simp only [occursReachable, Bool.or_eq_false_iff, beq_eq_false_iff_ne] at hocc
      simp only [find_in_dict, if_neg hocc.1.1]
      exact ihr hocc.2

/-- The search scans past a prefix containing no reachable occurrence of
the needle and continues in the suffix. -/
theorem find_in_dict_append (needle : String) (pre rest : List Entry) :
    occursReachable needle pre = false →
    find_in_dict needle (pre ++ rest) = find_in_dict needle rest := by
  induction pre with
  | nil => simp
  | cons e pre ih =>
    intro hocc
    match e with
    | .bad key =>
      rw [occursReachable.eq_2] at hocc
      simpa only [List.cons_append, find_in_dict] using ih hocc
    | .ok key (.vdict es) =>
      rw [occursReachable.eq_3] at hocc
      simp only [Bool.or_eq_false_iff, beq_eq_false_iff_ne] at hocc
      obtain ⟨⟨hkey, hval⟩, hrest⟩ := hocc
      simp only [List.cons_append, find_in_dict, if_neg hkey]
      rw [find_in_dict_eq_vnone_of_not_reachable needle es hval]
      exact ih hrest
    | .ok key .vnone =>
      simp only [occursReachable, Bool.or_eq_false_iff, beq_eq_false_iff_ne] at hocc
      simp only [List.cons_append, find_in_dict, if_neg hocc.1.1]
      exact ih hocc.2
    | .ok key (.vstr s) =>
      simp only [occursReachable, Bool.or_eq_false_iff, beq_eq_false_iff_ne] at hocc
      simp only [List.cons_append, find_in_dict, if_neg hocc.1.1]
      exact ih hocc.2
    | .ok key (.vlist vs) =>
      simp only [occursReachable, Bool.or_eq_false_iff, beq_eq_false_iff_ne] at hocc
      simp only [List.cons_append, find_in_dict, if_neg hocc.1.1]
      exact ih hocc.2

/-- A key `find_in_dict` can reach occurs in the structure. -/
theorem occursAnywhereE_of_occursReachable (needle : String) (h : List Entry) :
    occursReachable needle h = true → occursAnywhereE needle h = true := by
  induction h using occursReachable.induct needle with
  | case1 => simp [occursReachable.eq_1]
  | case2 key rest ih =>
    intro hocc
    rw [occursReachable.eq_2] at hocc
    simp only [occursAnywhereE, Bool.or_eq_true]
    exact Or.inr (ih hocc)
  | case3 key value rest ihv ihr =>
    intro hocc
    match value, ihv, hocc with
    | .vdict es, ihv, hocc =>
      rw [occursReachable.eq_3] at hocc
      simp only [Bool.or_eq_true] at hocc
      simp only [occursAnywhereE, occursAnywhereV, Bool.or_eq_true]
      rcases hocc with (hk | hes) | hrest
      · exact Or.inl (Or.inl hk)
      · exact Or.inl (Or.inr (ihv hes))
      · exact Or.inr (ihr hrest)
    | .vnone, _, hocc =>
      simp only [occursReachable] at hocc
      simp only [occursAnywhereE, Bool.or_eq_true] at *
      rcases hocc with (hk | h0) | hrest
      · exact Or.inl (Or.inl hk)
      · exact absurd h0 (by simp)
      · exact Or.inr (ihr hrest)
    | .vstr s, _, hocc =>
      simp only [occursReachable] at hocc
      simp only [occursAnywhereE, Bool.or_eq_true] at *
      rcases hocc with (hk | h0) | hrest
      · exact Or.inl (Or.inl hk)
      · exact absurd h0 (by simp)
      · exact Or.inr (ihr hrest)
    | .vlist vs, _, hocc =>
      simp only [occursReachable] at hocc
      simp only [occursAnywhereE, Bool.or_eq_true] at *
      rcases hocc with (hk | h0) | hrest
      · exact Or.inl (Or.inl hk)
      · exact absurd h0 (by simp)
      · exact Or.inr (ihr hrest)

/-- An entry whose value access raises is invisible to the search, wherever
it sits in the haystack. -/
theorem find_in_dict_bad_skip (needle key : String) (pre post : List Entry) :
    find_in_dict needle (pre ++ .bad key :: post) =
    find_in_dict needle (pre ++ post) := by
  induction pre with
  | nil => simp [find_in_dict]
  | cons e pre ih =>
    match e with
    | .bad k2 => simpa only [List.cons_append, find_in_dict] using ih
    | .ok k2 (.vdict es) =>
      simp only [List.cons_append, find_in_dict]
      by_cases hk : k2 = needle
      · simp [hk]
      · simp only [if_neg hk]
        cases hfe : find_in_dict needle es <;> simp [ih]
    | .ok k2 .vnone =>
      simp only [List.cons_append, find_in_dict]
      by_cases hk : k2 = needle
      · simp [hk]
      · simp [if_neg hk, ih]
    | .ok k2 (.vstr s) =>
      simp only [List.cons_append, find_in_dict]
      by_cases hk : k2 = needle
      · simp [hk]
      · simp [if_neg hk, ih]
    | .ok k2 (.vlist vs) =>
      simp only [List.cons_append, find_in_dict]
      by_cases hk : k2 = needle
      · simp [hk]
      · simp [if_neg hk, ih]

/-! ## Claim C1 -/

/-- C1, counterexample: the claim says a match among the haystack's own
keys wins over any match found by recursing into a nested mapping
regardless of key order.  In the haystack `{"a": {"k": "deep"}, "k":
"shallow"}` the needle `"k"` occurs at depth 1 with value `"shallow"`,
yet `find_in_dict` returns the deep value `"deep"`, because iteration
reaches the dict-valued earlier key `"a"` and recursion into it succeeds
before the shallow key is ever compared. -/
theorem C1_counterexample_earlier_deep_match_wins :
    find_in_dict "k"
      [Entry.ok "a" (.vdict [Entry.ok "k" (.vstr "deep")]),
       Entry.ok "k" (.vstr "shallow")] = .vstr "deep" := by
  simp [find_in_dict]

/-- C1, amended: `find_in_dict` is a pre-order depth-first search in key
order.  A match among the haystack's own keys wins over matches found by
recursing into nested mappings that occur *later in key order* (and over
deeper occurrences under the same key): if no entry before the needle's
own-key entry contains a reachable occurrence of the needle, the shallow
value is returned.  It does not win regardless of key order. -/
theorem C1_shallow_match_wins_over_later_entries (needle : String) (v : PyVal)
    (pre post : List Entry) (hocc : occursReachable needle pre = false) :
    find_in_dict needle (pre ++ .ok needle v :: post) = v := by
  rw [find_in_dict_append needle pre _ hocc]
  cases v <;> simp [find_in_dict.eq_3, find_in_dict.eq_4]

/-- C1, witness: in `{"a": {"b": "x"}, "k": "shallow", "c": "z"}` the
needle `"k"` is not reachable in the prefix, so the depth-1 match wins. -/
theorem C1_shallow_match_witness :
    find_in_dict "k"
      [Entry.ok "a" (.vdict [Entry.ok "b" (.vstr "x")]),
       Entry.ok "k" (.vstr "shallow"),
       Entry.ok "c" (.vstr "z")] = .vstr "shallow" :=
  C1_shallow_match_wins_over_later_entries "k" (.vstr "shallow")
    [Entry.ok "a" (.vdict [Entry.ok "b" (.vstr "x")])]
    [Entry.ok "c" (.vstr "z")]
    (by simp [occursReachable])

/-! ## Claim C8 -/

/-- C8: over a haystack containing no occurrence of the target key
anywhere, `find_in_dict` returns the absent result (`None`) rather than an
error; and a key whose value access raises is silently skipped — deleting
it from the haystack changes nothing, so one bad key never prevents a
matching key elsewhere from being found. -/
theorem C8_absent_on_no_occurrence_and_bad_keys_skipped :
    (∀ (needle : String) (h : List Entry),
        occursAnywhereE needle h = false → find_in_dict needle h = .vnone) ∧
    (∀ (needle key : String) (pre post : List Entry),
        find_in_dict needle (pre ++ .bad key :: post) =
        find_in_dict needle (pre ++ post)) := by
  constructor
  · intro needle h hocc
    apply find_in_dict_eq_vnone_of_not_reachable
    cases hr : occursReachable needle h with
    | false => rfl
    | true =>
      rw [occursAnywhereE_of_occursReachable needle h hr] at hocc
      cases hocc
  · exact find_in_dict_bad_skip

/-- C8, witness: a deeply nested haystack without the needle yields the
absent result, and a bad key in the middle leaves the search of
`{"a": "x", "b": "good"}` untouched. -/
theorem C8_witness :
    find_in_dict "z"
      [Entry.bad "q",
       Entry.ok "a" (.vdict [Entry.ok "b" (.vdict [Entry.ok "c" (.vstr "d")])])] =
      .vnone ∧
    find_in_dict "b"
      [Entry.ok "a" (.vstr "x"), Entry.bad "q", Entry.ok "b" (.vstr "good")] =
    find_in_dict "b"
      [Entry.ok "a" (.vstr "x"), Entry.ok "b" (.vstr "good")] :=
  ⟨C8_absent_on_no_occurrence_and_bad_keys_skipped.1 "z" _
      (by simp [occursAnywhereE, occursAnywhereV]),
   C8_absent_on_no_occurrence_and_bad_keys_skipped.2 "b" "q"
      [Entry.ok "a" (.vstr "x")] [Entry.ok "b" (.vstr "good")]⟩

/-! ## Claim C9 -/

/-- C9: `find_in_dict` recurses only into mapping-valued entries.  If the
needle occurs nowhere among the reachable keys — the haystack's own keys
and, recursively, the keys of dict-valued entries — the search returns the
absent result; in particular, in `{"a": [{"k": "v"}]}` the key `"k"` is
present but only inside a list value, and the search returns absent. -/
theorem C9_lists_never_entered :
    (∀ (needle : String) (h : List Entry),
        occursReachable needle h = false → find_in_dict needle h = .vnone) ∧
    (occursAnywhereE "k"
        [Entry.ok "a" (.vlist [.vdict [Entry.ok "k" (.vstr "v")]])] = true ∧
     find_in_dict "k"
        [Entry.ok "a" (.vlist [.vdict [Entry.ok "k" (.vstr "v")]])] = .vnone) := by
  refine ⟨find_in_dict_eq_vnone_of_not_reachable, ?_, ?_⟩
  · simp [occursAnywhereE, occursAnywhereV, occursAnywhereL]
  · simp [find_in_dict]

/-- C9, witness: the key `"k"` hides inside a list under `"a"` and beside a
harmless scalar; the search returns absent. -/
theorem C9_witness :
    find_in_dict "k"
      [Entry.ok "a" (.vlist [.vdict [Entry.ok "k" (.vstr "v")]]),
       Entry.ok "b" (.vstr "w")] = .vnone :=
  C9_lists_never_entered.1 "k" _ (by simp [occursReachable])

/-! ## Claim C2 -/

/-- C2: for `<root><item>a</item><item>b</item></root>` the parser promotes
the repeated sibling tag to the order-preserving list `["a", "b"]`, but the
result is the children's map itself, `{"item": ["a", "b"]}` — it is *not*
keyed by the root element's tag, contrary to the claim and to the
repository's own test (`test_get_json` expects `{'root': {'data':
'value'}}` where the code produces `{'data': 'value'}`). -/
theorem C2_repeated_siblings_list_but_root_tag_dropped :
    xml_to_dict (.mk "root" []
        [.mk "item" [] [] (some "a"), .mk "item" [] [] (some "b")] none) =
      .jdict [("item", .jlist [.jstr "a", .jstr "b"])] ∧
    xml_to_dict (.mk "root" []
        [.mk "item" [] [] (some "a"), .mk "item" [] [] (some "b")] none) ≠
      .jdict [("root", .jdict [("item", .jlist [.jstr "a", .jstr "b"])])] := by
  constructor
  · simp [xml_to_dict, element_to_dict, childPairs, dictInsertChild,
          dictUpdate, dictAssign, Element.tag]
  · simp [xml_to_dict, element_to_dict, childPairs, dictInsertChild,
          dictUpdate, dictAssign, Element.tag]

/-! ## Claim C3 -/

/-- C3: flattening `{"root": {"data": "value"}}` with the default separator
yields `{"root_data": "value"}` as claimed, but the CSV encoding is
`"root_data\r\nvalue\r\n"` — `csv.DictWriter`'s default dialect terminates
rows with CRLF — and not the claimed (and test-asserted)
`"root_data\nvalue\n"`. -/
theorem C3_flatten_ok_but_csv_uses_crlf :
    flatten_entries "_" [("root", .jdict [("data", .jstr "value")])] "" =
      [("root_data", .jstr "value")] ∧
    to_csv_tree (.jdict [("root", .jdict [("data", .jstr "value")])]) =
      .ok "root_data\r\nvalue\r\n" ∧
    ("root_data\r\nvalue\r\n" : String) ≠ "root_data\nvalue\n" := by
  refine ⟨by simp [flatten_entries], ?_, by decide⟩
  simp [to_csv_tree, truthy, flatten_entries, dict_of_pairs, dictAssign,
        csvRow, csvQuote, csvField]
  decide

/-! ## Claim C4 -/

/-- C4, counterexample: on the empty tree `{}` the JSON stage does not
raise `EmptyPayload` — `to_json` has no emptiness check and happily
serializes the empty dict to `"{}"`. -/
theorem C4_counterexample_json_stage_accepts_empty :
    convert_stage "json" (.jdict []) = .ok "{}" := by
  simp [convert_stage, to_json_tree, jsonDump, dumpAux]

/-- C4, amended: only the CSV stage guards against an empty or absent
tree: for every falsy tree (`None`, `""`, `[]`, `{}`), `convert("csv")`
raises `EmptyPayload` while `convert("json")` returns the serialized
tree. -/
theorem C4_empty_tree_csv_raises_json_serializes (t : JVal)
    (h : truthy t = false) :
    convert_stage "csv" t = .error .emptyPayload ∧
    convert_stage "json" t = .ok (jsonDump t) := by
  constructor
  · simp [convert_stage, to_csv_tree, h]
  · simp [convert_stage, to_json_tree]

/-- C4, witness: the empty tree `{}` is falsy; CSV errors, JSON yields
its serialization. -/
theorem C4_witness :
    convert_stage "csv" (.jdict []) = .error .emptyPayload ∧
    convert_stage "json" (.jdict []) = .ok (jsonDump (.jdict [])) :=
  C4_empty_tree_csv_raises_json_serializes (.jdict []) (by decide)

/-! ## Claim C6 -/

/-- `List.lookup` on a cons cell, spelled with an `if`. -/
theorem lookup_pair_cons (a k : String) (v : JVal) (l : List (String × JVal)) :
    List.lookup a ((k, v) :: l) = if a == k then some v else List.lookup a l := by
  rw [List.lookup]
  cases h : a == k <;> simp

/-- Overwriting `k` in place makes `k` look up to the new value when `k`
was present. -/
theorem lookup_map_assign (k : String) (v : JVal) :
    ∀ d : List (String × JVal),
      (d.map (fun p => if p.1 = k then (p.1, v) else p)).lookup k =
        if (d.lookup k).isSome then some v else none := by
  intro d
  induction d with
  | nil => simp
  | cons p d ih =>
    obtain ⟨k1, v1⟩ := p
    by_cases hpk : k1 = k
    · subst hpk
      simp [lookup_pair_cons]
    · have hbk : (k == k1) = false :=
        beq_eq_false_iff_ne.mpr (fun h => hpk h.symm)
      simp only [List.map_cons, if_neg hpk, lookup_pair_cons, hbk,
                 Bool.false_eq_true, if_false]
      exact ih

/-- Appending a fresh binding makes `k` look up to it. -/
theorem lookup_append_fresh (k : String) (v : JVal) :
    ∀ d : List (String × JVal), d.lookup k = none →
      (d ++ [(k, v)]).lookup k = some v := by
  intro d
  induction d with
  | nil => simp [lookup_pair_cons]
  | cons p d ih =>
    obtain ⟨k1, v1⟩ := p
    intro h
    rw [lookup_pair_cons] at h
    rw [List.cons_append, lookup_pair_cons]
    cases hbk : k == k1 with
    | true => rw [hbk] at h; simp at h
    | false =>
      rw [hbk] at h
      simp only [Bool.false_eq_true, if_false] at h ⊢
      exact ih h

/-- Assigning `k ↦ v` into an insertion-ordered dict makes `k` look up to
`v`, whether `k` was present (overwritten in place) or fresh (appended). -/
theorem dictAssign_lookup (d : List (String × JVal)) (k : String) (v : JVal) :
    (dictAssign d k v).lookup k = some v := by
  unfold dictAssign
  cases hmem : (d.lookup k).isSome with
  | true => simp [hmem, lookup_map_assign]
  | false =>
    have hnone : d.lookup k = none := by
      cases h2 : d.lookup k with
      | none => rfl
      | some w => rw [h2] at hmem; simp at hmem
    simp only [hmem, Bool.false_eq_true, if_false]
    exact lookup_append_fresh k v d hnone

/-- C6: an attribute whose name collides with a child element's tag
overwrites the child's entry, because attributes are merged after the
children with plain last-write-wins assignment: concretely,
`<root x="attr"><x>child</x></root>` parses to `{"x": "attr"}`, and in
general merging an attribute `(k, v)` makes `k` look up to the string
`v` whatever the children put there. -/
theorem C6_attribute_overwrites_child :
    element_to_dict
        (.mk "root" [("x", "attr")] [.mk "x" [] [] (some "child")] none) =
      .jdict [("x", .jstr "attr")] ∧
    ∀ (d : List (String × JVal)) (k v : String),
      (dictUpdate d [(k, v)]).lookup k = some (.jstr v) := by
  constructor
  · simp [element_to_dict, childPairs, dictInsertChild, dictUpdate,
          dictAssign, Element.tag]
  · intro d k v
    exact dictAssign_lookup d k (.jstr v)

/-! ## Claim C10 -/

/-- C10: a root element with no children and no attributes parses to a
scalar leaf — its text, or null when there is none — and the CSV stage
applied to a non-empty scalar payload fails with the flattener's
attribute-access error (`.items()` on a non-dict), which is distinct from
`EmptyPayload`. -/
theorem C10_scalar_leaf_breaks_csv_flattener :
    (∀ (tag : String) (text : Option String),
        xml_to_dict (.mk tag [] [] text) =
          (match text with | none => JVal.jnull | some s => JVal.jstr s)) ∧
    (∀ s : String, s ≠ "" → to_csv_tree (.jstr s) = .error .attributeError) ∧
    PyErr.attributeError ≠ PyErr.emptyPayload := by
  refine ⟨?_, ?_, by decide⟩
  · intro tag text
    cases text <;> simp [xml_to_dict, element_to_dict]
  · intro s hs
    simp [to_csv_tree, truthy, hs]

/-- C10, witness: `<root>value</root>` parses to the scalar `"value"`,
whose CSV conversion fails with the attribute-access error. -/
theorem C10_witness :
    xml_to_dict (.mk "root" [] [] (some "value")) = .jstr "value" ∧
    to_csv_tree (.jstr "value") = .error .attributeError :=
  ⟨C10_scalar_leaf_breaks_csv_flattener.1 "root" (some "value"),
   C10_scalar_leaf_breaks_csv_flattener.2.1 "value" (by decide)⟩

/-! ## Claim C5 -/

/-- C5: the extraction loop of `to_xml` raises exactly when no indirect
candidate's resolved bytes match the signature; otherwise it returns the
first matching stream having resolved only the indirect candidates up to
and including that one — nothing after the match is resolved. -/
theorem C5_first_matching_stream_extracted (m : String → Bool)
    (cs : List Candidate) :
    ((to_xml_extract m cs).1 = none ↔
      ∀ d, Candidate.indirect d ∈ cs → m d = false) ∧
    (∀ s, (to_xml_extract m cs).1 = some s →
      m s = true ∧ ∃ pre post,
        cs = pre ++ Candidate.indirect s :: post ∧
        (∀ d, Candidate.indirect d ∈ pre → m d = false) ∧
        (to_xml_extract m cs).2 = countIndirect pre + 1) := by
  induction cs with
  | nil => simp [to_xml_extract]
  | cons c rest ih =>
    match c with
    | .direct =>
      rw [to_xml_extract]
      constructor
      · constructor
        · intro h d hd
          rcases List.mem_cons.mp hd with h1 | h1
          · cases h1
          · exact ih.1.mp h d h1
        · intro h
          exact ih.1.mpr (fun d hd => h d (List.mem_cons_of_mem _ hd))
      · intro s hs
        obtain ⟨hm, pre, post, hcs, hpre, hcount⟩ := ih.2 s hs
        refine ⟨hm, .direct :: pre, post, ?_, ?_, ?_⟩
        · rw [List.cons_append, hcs]
        · intro d hd
          rcases List.mem_cons.mp hd with h1 | h1
          · cases h1
          · exact hpre d h1
        · rw [countIndirect]
          exact hcount
    | .indirect data =>
      by_cases hm : m data = true
      · rw [to_xml_extract, if_pos hm]
        constructor
        · constructor
          · intro h
            exact absurd h (by simp)
          · intro h
            have hx := h data (List.mem_cons_self _ _)
            rw [hm] at hx
            cases hx
        · intro s hs
          have hds : data = s := by injection hs
          subst hds
          refine ⟨hm, [], rest, rfl, ?_, rfl⟩
          intro d hd
          cases hd
      · have hnm : ¬ m data = true := hm
        rw [Bool.not_eq_true] at hm
        simp only [to_xml_extract, if_neg hnm]
        constructor
        · constructor
          · intro h d hd
            rcases List.mem_cons.mp hd with h1 | h1
            · injection h1 with h2
              subst h2
              exact hm
            · exact ih.1.mp h d h1
          · intro h
            exact ih.1.mpr (fun d hd => h d (List.mem_cons_of_mem _ hd))
        · intro s hs
          obtain ⟨hmm, pre, post, hcs, hpre, hcount⟩ := ih.2 s hs
          refine ⟨hmm, .indirect data :: pre, post, ?_, ?_, ?_⟩
          · rw [List.cons_append, hcs]
          · intro d hd
            rcases List.mem_cons.mp hd with h1 | h1
            · injection h1 with h2
              subst h2
              exact hm
            · exact hpre d h1
          · rw [countIndirect, hcount]

/-- C5, witness: with the matcher looking for the signature string, a
candidate list with no matching stream yields the not-found result; on a
list whose third candidate matches, the match is returned after exactly two
resolutions — the trailing candidate is never resolved. -/
theorem C5_witness :
    (to_xml_extract (fun s => s == "datasets xmlns")
      [Candidate.direct, Candidate.indirect "junk"]).1 = none ∧
    (fun s : String => s == "datasets xmlns") "datasets xmlns" = true ∧
    (to_xml_extract (fun s => s == "datasets xmlns")
      [Candidate.direct, Candidate.indirect "junk",
       Candidate.indirect "datasets xmlns", Candidate.indirect "tail"]).1 =
      some "datasets xmlns" ∧
    (to_xml_extract (fun s => s == "datasets xmlns")
      [Candidate.direct, Candidate.indirect "junk",
       Candidate.indirect "datasets xmlns", Candidate.indirect "tail"]).2 = 2 :=
  ⟨(C5_first_matching_stream_extracted _ _).1.mpr (by
      intro d hd
      rcases List.mem_cons.mp hd with h1 | h1
      · cases h1
      · rcases List.mem_cons.mp h1 with h2 | h2
        · injection h2 with h3
          subst h3
          rfl
        · cases h2),
   ((C5_first_matching_stream_extracted (fun s => s == "datasets xmlns")
      [Candidate.direct, Candidate.indirect "junk",
       Candidate.indirect "datasets xmlns", Candidate.indirect "tail"]).2
      "datasets xmlns" rfl).1,
   rfl, rfl⟩

/-! ## Claim C7 -/

/-- Inserting two entries with distinct keys commutes. -/
theorem insertByKey_comm (a b : String × String) (hab : a.1 ≠ b.1) :
    ∀ s, insertByKey a (insertByKey b s) = insertByKey b (insertByKey a s) := by
  intro s
  induction s with
  | nil =>
    simp only [insertByKey]
    rcases le_total a.1 b.1 with h | h
    · have hba : ¬ b.1 ≤ a.1 := fun h2 => hab (le_antisymm h h2)
      rw [if_pos h, if_neg hba]
    · have hba : ¬ a.1 ≤ b.1 := fun h2 => hab (le_antisymm h2 h)
      rw [if_neg hba, if_pos h]
  | cons q s ih =>
    by_cases hbq : b.1 ≤ q.1 <;> by_cases haq : a.1 ≤ q.1
    · rcases le_total a.1 b.1 with h | h
      · have hba : ¬ b.1 ≤ a.1 := fun h2 => hab (le_antisymm h h2)
        simp only [insertByKey, if_pos hbq, if_pos haq, if_pos h, if_neg hba]
      · have hba : ¬ a.1 ≤ b.1 := fun h2 => hab (le_antisymm h2 h)
        simp only [insertByKey, if_pos hbq, if_pos haq, if_pos h, if_neg hba]
    · have hba : ¬ a.1 ≤ b.1 := fun h2 => haq (le_trans h2 hbq)
      simp only [insertByKey, if_pos hbq, if_neg haq, if_neg hba]
    · have hba : ¬ b.1 ≤ a.1 := fun h2 => hbq (le_trans h2 haq)
      simp only [insertByKey, if_neg hbq, if_pos haq, if_neg hba]
    · simp only [insertByKey, if_neg hbq, if_neg haq, ih]

/-- With pairwise-distinct keys, the sorted entry list depends only on the
multiset of entries, not on their input order. -/
theorem sortByKey_perm_eq :
    ∀ {l1 l2 : List (String × String)}, l1.Perm l2 →
      (l1.map Prod.fst).Nodup → sortByKey l1 = sortByKey l2 := by
  intro l1 l2 hperm
  induction hperm with
  | nil => intro _; rfl
  | cons x h ih =>
    intro hnd
    simp only [List.map_cons, List.nodup_cons] at hnd
    have hrec := ih hnd.2
    simp only [sortByKey] at hrec
    simp only [sortByKey, List.foldr_cons, hrec]
  | swap x y l =>
    intro hnd
    simp only [List.map_cons, List.nodup_cons, List.mem_cons] at hnd
    have hxy : y.1 ≠ x.1 := fun h => hnd.1 (Or.inl h)
    simp only [sortByKey, List.foldr_cons]
    exact insertByKey_comm y x hxy _
  | trans h1 h2 ih1 ih2 =>
    intro hnd
    rw [ih1 hnd, ih2 (((h1.map Prod.fst).nodup_iff).mp hnd)]

/-- Rendering the entries of an object is a map over them. -/
theorem dumpEntries_eq_map :
    ∀ (es : List (String × JVal)) (lvl : Nat),
      dumpEntries es lvl = es.map (fun p => (p.1, dumpAux p.2 lvl)) := by
  intro es lvl
  induction es with
  | nil => simp [dumpEntries]
  | cons p es ih =>
    obtain ⟨k, v⟩ := p
    simp [dumpEntries, ih]

/-- C7: the XML-to-JSON stage is deterministic.  The pipeline is a pure
function of the parsed input, so two runs on the identical input are
byte-identical; moreover `sort_keys=True` makes the serialized object text
independent of the key insertion order the parser happened to produce:
objects whose entry lists are permutations of one another (with distinct
keys) serialize to byte-identical JSON text. -/
theorem C7_json_encoding_deterministic :
    (∀ e : Element, jsonDump (xml_to_dict e) = jsonDump (xml_to_dict e)) ∧
    (∀ es1 es2 : List (String × JVal), es1.Perm es2 →
      (es1.map Prod.fst).Nodup →
      jsonDump (.jdict es1) = jsonDump (.jdict es2)) := by
  refine ⟨fun e => rfl, ?_⟩
  intro es1 es2 hperm hnd
  unfold jsonDump
  by_cases he : es2.isEmpty = true
  · have h1 : es2 = [] := by
      cases es2
      · rfl
      · simp at he
    subst h1
    rw [hperm.eq_nil]
  · rw [Bool.not_eq_true] at he
    have h1 : es1.isEmpty = false := by
      cases hh : es1 with
      | nil =>
        rw [hh] at hperm
        have h2 := hperm.symm.eq_nil
        subst h2
        simp at he
      | cons a l => rfl
    have hsort : sortByKey (dumpEntries es1 1) = sortByKey (dumpEntries es2 1) := by
      rw [dumpEntries_eq_map, dumpEntries_eq_map]
      apply sortByKey_perm_eq (hperm.map _)
      rw [List.map_map]
      exact hnd
    simp only [dumpAux, h1, he, Bool.false_eq_true, if_false, hsort]

/-- C7, witness: the two insertion orders of `{"a": "2", "b": "1"}`
serialize identically. -/
theorem C7_witness :
    jsonDump (.jdict [("b", .jstr "1"), ("a", .jstr "2")]) =
    jsonDump (.jdict [("a", .jstr "2"), ("b", .jstr "1")]) :=
  C7_json_encoding_deterministic.2 _ _
    (List.Perm.swap ("a", JVal.jstr "2") ("b", JVal.jstr "1") [])
    (by decide)
